import Mathlib

/-!
Verification development for the wiz-ai repository.

Shallow embedding of the document-to-knowledge pipeline and the
retrieval-augmented conversation engine, together with theorems settling
the frozen specification claims.

Python strings are modelled as `List Char` wherever character-level
reasoning is needed (lengths, splitting, stripping); `String` is kept for
fields that are only carried around.  Machine calls (LLM, embedding
model, vector search) are external services: each is passed in as an
explicit oracle argument, so a turn is a pure function of the previous
state and the oracle outputs.
-/

namespace WizAI

/-! ## Conversation state machine
Embedded from `src/wiz_ai/agents/hummingbot_installation/installation_assistant.py`. -/

namespace Hummingbot

/-- `ConversationState` enum (installation_assistant.py, lines 34-37). -/
inductive ConversationState where
  | active
  | solved
  | escalated
deriving DecidableEq, Repr

/-- `InstallationMethod` enum (lines 39-42). -/
inductive InstallationMethod where
  | docker
  | source
  | unknown
deriving DecidableEq, Repr

/-- `UserOS` enum (lines 44-48). -/
inductive UserOS where
  | windows
  | macos
  | linux
  | unknown
deriving DecidableEq, Repr

/-- Message role in the langgraph `MessagesState`. -/
inductive Role where
  | human
  | ai
deriving DecidableEq, Repr

/-- A chat message of the langgraph state. -/
structure ChatMsg where
  role : Role
  content : String
deriving DecidableEq, Repr

/-- A retrieved document as stored by `retrieve_documents` (lines 96-100):
`id` is the metadata document id (or the content-hash fallback), `content`
the page content.  The raw qdrant metadata dict is not needed beyond the
document id, so it is represented by that id. -/
structure RetrievedDoc where
  id : String
  content : String
deriving DecidableEq, Repr

/-- The langgraph `State` (lines 52-60). -/
structure State where
  messages : List ChatMsg
  summary : String
  retrieved_docs : List RetrievedDoc
  iteration_count : Nat
  conversation_state : ConversationState
  detected_installation_method : InstallationMethod
  detected_os : UserOS
  needs_support_escalation : Bool
deriving DecidableEq, Repr

/-- `InstallationAssistantAnalysis` (lines 63-69): the structured output of
the analysis model call, supplied as an oracle value. -/
structure InstallationAssistantAnalysis where
  updated_summary : String
  is_solved : Bool
  detected_installation_method : InstallationMethod
  detected_os : UserOS
  needs_support_escalation : Bool
deriving DecidableEq, Repr

/-- A search result of `vector_store.similarity_search` (line 89): page
content plus the optional `document_id` metadata entry. -/
structure SearchDoc where
  page_content : String
  metadata_document_id : Option String
deriving DecidableEq, Repr

/-- Fallback identity `str(hash(doc.page_content))` used when a search
result has no `document_id` metadata (line 94); the Python builtin hash is
modelled as a deterministic function of the content. -/
def contentHashFallback (s : String) : String :=
  String.append "hash:" s

/-- The `k=3` constant of the `similarity_search` call (line 89). -/
def retrievalK : Nat := 3

/-- `retrieve_documents` (lines 75-109).  The external
`vector_store.similarity_search(latest_message, k=3)` result is the oracle
argument `searchResults`.  Computes the set of already retrieved ids,
filters the search results against it, and appends the new docs to
`retrieved_docs` (returning the state unchanged when nothing is new, or
when there is no user message). -/
def retrieve_documents (st : State) (searchResults : List SearchDoc) : State :=
  let user_messages := st.messages.filter (fun m => m.role = Role.human)
  if user_messages = [] then st
  else
    let already_retrieved_doc_ids := st.retrieved_docs.map (·.id)
    let new_docs := (searchResults.filter (fun d =>
        ¬ (d.metadata_document_id.getD (contentHashFallback d.page_content))
            ∈ already_retrieved_doc_ids)).map
      (fun d => RetrievedDoc.mk
        (d.metadata_document_id.getD (contentHashFallback d.page_content)) d.page_content)
    if new_docs ≠ [] then
      { st with retrieved_docs := st.retrieved_docs ++ new_docs }
    else st

/-- Just the incremental list returned by one `retrieve_documents` call
(the `new_docs` local of lines 92-100). -/
def newDocs (st : State) (searchResults : List SearchDoc) : List RetrievedDoc :=
  let already_retrieved_doc_ids := st.retrieved_docs.map (·.id)
  (searchResults.filter (fun d =>
      ¬ (d.metadata_document_id.getD (contentHashFallback d.page_content))
          ∈ already_retrieved_doc_ids)).map
    (fun d => RetrievedDoc.mk
      (d.metadata_document_id.getD (contentHashFallback d.page_content)) d.page_content)

/-- `analyze_conversation` (lines 111-174).  The LLM structured output is
the oracle argument `result`; the function embeds the deterministic
post-processing of lines 156-174. -/
def analyze_conversation (st : State) (result : InstallationAssistantAnalysis) : State :=
  let conversation_state :=
    if result.is_solved then ConversationState.solved else ConversationState.active
  let needs_escalation :=
    result.needs_support_escalation ||
      (decide (st.iteration_count ≥ 9) && decide (conversation_state = ConversationState.active))
  let conversation_state :=
    if needs_escalation then ConversationState.escalated else conversation_state
  { st with
    summary := result.updated_summary
    conversation_state := conversation_state
    detected_installation_method := result.detected_installation_method
    detected_os := result.detected_os
    needs_support_escalation := needs_escalation }

/-- `generate_response` (lines 176-249).  The LLM free-text reply is the
oracle argument `responseText`; the function appends the ai message and
increments `iteration_count` (lines 246-249). -/
def generate_response (st : State) (responseText : String) : State :=
  { st with
    messages := st.messages ++ [ChatMsg.mk Role.ai responseText]
    iteration_count := st.iteration_count + 1 }

/-- `should_continue` (lines 251-255): the conversation ends exactly on
SOLVED or ESCALATED. -/
def should_continue (st : State) : Bool :=
  if st.conversation_state = ConversationState.solved ∨
      st.conversation_state = ConversationState.escalated then false else true

/-- One pass of the graph loop: `retrieve_documents` then
`analyze_conversation` then `generate_response` (edges of lines 267-271),
executed only while the conditional edge keeps the conversation going
(lines 274-280); a terminal state is left untouched. -/
def stepTurn (st : State) (searchResults : List SearchDoc)
    (result : InstallationAssistantAnalysis) (responseText : String) : State :=
  if should_continue st then
    generate_response (analyze_conversation (retrieve_documents st searchResults) result)
      responseText
  else st

/-- The initial state of line 286-287: one human message,
`iteration_count = 0`, all other fields at their `State` defaults. -/
def initialState : State :=
  { messages := [ChatMsg.mk Role.human "I want to install hummingbot on my Mac"]
    summary := ""
    retrieved_docs := []
    iteration_count := 0
    conversation_state := ConversationState.active
    detected_installation_method := InstallationMethod.unknown
    detected_os := UserOS.unknown
    needs_support_escalation := false }

/-- The analysis oracle of the liveness scenario: the model never reports
the problem solved and never asks for escalation. -/
def neverSolvedAnalysis : InstallationAssistantAnalysis :=
  { updated_summary := ""
    is_solved := false
    detected_installation_method := InstallationMethod.unknown
    detected_os := UserOS.unknown
    needs_support_escalation := false }

/-- `n` turns from the initial state with the model always answering
`is_solved = false, needs_escalation = false` and empty search results. -/
def runTurns : Nat → State
  | 0 => initialState
  | n + 1 => stepTurn (runTurns n) [] neverSolvedAnalysis ""

end Hummingbot

end WizAI

namespace WizAI.Hummingbot

/-- Shared helper: the status computed by `analyze_conversation` equals the
escalation formula of the specification. -/
lemma analyze_status_eq (st : State) (result : InstallationAssistantAnalysis) :
    (analyze_conversation st result).conversation_state =
      (if result.needs_support_escalation = true ∨
          (st.iteration_count ≥ 9 ∧ result.is_solved = false) then
        ConversationState.escalated
      else if result.is_solved then ConversationState.solved
      else ConversationState.active) := by
  rcases hs : result.is_solved <;> rcases he : result.needs_support_escalation <;>
    by_cases h9 : st.iteration_count ≥ 9 <;>
      simp [analyze_conversation, hs, he, h9]

/-- Shared helper: `retrieve_documents` only touches `retrieved_docs`. -/
lemma retrieve_documents_iteration_count (st : State) (sr : List SearchDoc) :
    (retrieve_documents st sr).iteration_count = st.iteration_count := by
  simp only [retrieve_documents]
  split
  · rfl
  · split <;> rfl

/-- Shared helper: `retrieve_documents` leaves the conversation status alone. -/
lemma retrieve_documents_conversation_state (st : State) (sr : List SearchDoc) :
    (retrieve_documents st sr).conversation_state = st.conversation_state := by
  simp only [retrieve_documents]
  split
  · rfl
  · split <;> rfl

/-- Shared helper: `analyze_conversation` does not change the iteration count. -/
lemma analyze_conversation_iteration_count (st : State)
    (result : InstallationAssistantAnalysis) :
    (analyze_conversation st result).iteration_count = st.iteration_count := rfl

/-- Shared helper: `generate_response` keeps the status and bumps the count. -/
lemma generate_response_conversation_state (st : State) (r : String) :
    (generate_response st r).conversation_state = st.conversation_state := rfl

/-- Shared helper: `generate_response` increments `iteration_count`. -/
lemma generate_response_iteration_count (st : State) (r : String) :
    (generate_response st r).iteration_count = st.iteration_count + 1 := rfl

/-- Claim C1: for every analyzer turn, the final conversation status is
ESCALATED if the model reports needs_escalation or the iteration count has
reached the cap of 9 while the model reports is_solved false; otherwise
SOLVED exactly when the model reports is_solved true; otherwise ACTIVE. -/
theorem analyze_conversation_status (st : State) (result : InstallationAssistantAnalysis) :
    (analyze_conversation st result).conversation_state =
      (if result.needs_support_escalation = true ∨
          (st.iteration_count ≥ 9 ∧ result.is_solved = false) then
        ConversationState.escalated
      else if result.is_solved then ConversationState.solved
      else ConversationState.active) :=
  analyze_status_eq st result

/-- Claim C2: starting ACTIVE with iteration count 0, every executed turn
increments the iteration count by exactly 1; with the model always
answering is_solved = false and needs_escalation = false the state stays
ACTIVE with iteration count n after n turns for n ≤ 9, the turn processed
once the iteration count has reached the cap of 9 ends ESCALATED, and the
conversation is terminal within CAP + 1 = 10 turns (every later turn
leaves the terminal state unchanged). -/
theorem escalation_liveness :
    (∀ (st : State) (sr : List SearchDoc) (a : InstallationAssistantAnalysis) (r : String),
        st.conversation_state = ConversationState.active →
        (stepTurn st sr a r).iteration_count = st.iteration_count + 1) ∧
    (∀ n, n ≤ 9 →
        (runTurns n).iteration_count = n ∧
        (runTurns n).conversation_state = ConversationState.active) ∧
    ((runTurns 10).conversation_state = ConversationState.escalated) ∧
    (∀ (st : State) (sr : List SearchDoc) (r : String),
        st.conversation_state = ConversationState.active → st.iteration_count = 9 →
        (stepTurn st sr neverSolvedAnalysis r).conversation_state =
          ConversationState.escalated) ∧
    (∀ m, 10 ≤ m → runTurns m = runTurns 10) := by
  refine ⟨?_, ?_, ?_, ?_, ?_⟩
  · intro st sr a r hact
    rw [stepTurn, if_pos (by simp [should_continue, hact]),
      generate_response_iteration_count, analyze_conversation_iteration_count,
      retrieve_documents_iteration_count]
  · intro n hn
    interval_cases n <;> decide
  · decide
  · intro st sr r hact h9
    rw [stepTurn, if_pos (by simp [should_continue, hact]),
      generate_response_conversation_state, analyze_status_eq, if_pos]
    right
    exact ⟨by rw [retrieve_documents_iteration_count, h9], rfl⟩
  · intro m hm
    induction m with
    | zero => omega
    | succ k ih =>
      rcases Nat.lt_or_ge 10 (k + 1) with h | h
      · have hk : 10 ≤ k := by omega
        have hterm : (runTurns k).conversation_state = ConversationState.escalated := by
          rw [ih hk]; decide
        show stepTurn (runTurns k) [] neverSolvedAnalysis "" = runTurns 10
        rw [stepTurn, should_continue, if_neg, ih hk]
        simp [hterm]
      · have : k + 1 = 10 := by omega
        rw [this]

/-- Witness for the liveness theorem at concrete turn counts: after 9 turns
the conversation is still ACTIVE with iteration count 9, after 10 turns it
is ESCALATED, and a turn from the initial state increments the count to 1. -/
theorem escalation_liveness_witness :
    (runTurns 9).iteration_count = 9 ∧
    (runTurns 9).conversation_state = ConversationState.active ∧
    (runTurns 10).conversation_state = ConversationState.escalated ∧
    (stepTurn initialState [] neverSolvedAnalysis "").iteration_count = 0 + 1 ∧
    runTurns 11 = runTurns 10 :=
  ⟨(escalation_liveness.2.1 9 (by decide)).1,
   (escalation_liveness.2.1 9 (by decide)).2,
   escalation_liveness.2.2.1,
   escalation_liveness.1 initialState [] neverSolvedAnalysis "" (by decide),
   escalation_liveness.2.2.2.2 11 (by decide)⟩

end WizAI.Hummingbot

namespace WizAI

/-! ## NoSQL base documents
Embedded from `src/wiz_ai/models/base/nosql_base.py` and the concrete
document classes of the repository. -/

namespace NoSQL

/-- The concrete `NoSQLBaseDocument` subclasses found in the repository:
`RawDocument` (models/base/documents.py) and the two `UserDocument`
variants (models/nosql/user.py and models/user.py, distinct classes with
the same name).  None of them subclasses another, so `isinstance(value,
self.__class__)` holds between two of these instances exactly when their
classes coincide. -/
inductive DocClass where
  | rawDocument
  | userDocumentNosql
  | userDocumentModels
deriving DecidableEq, Repr

/-- UUID4 values, modelled as natural numbers. -/
abbrev UUID := Nat

/-- An instance of a concrete NoSQL document class: its class, its `id`
field, and the class-specific payload fields (`platform`/`content` for
`RawDocument`, `first_name`/`last_name` for the user documents), which are
irrelevant to `__eq__` and `__hash__`. -/
structure NoSQLDoc where
  cls : DocClass
  id : UUID
  fields : List (String × String)
deriving DecidableEq, Repr

/-- `isinstance(value, cls)` restricted to the concrete document classes
above (no subclass chains among them). -/
def isinstance (value : NoSQLDoc) (cls : DocClass) : Bool :=
  value.cls = cls

/-- Python `hash(uuid)`: a deterministic function of the UUID, modelled as
the identity. -/
def uuidHash (u : UUID) : Nat := u

/-- `NoSQLBaseDocument.__eq__` (nosql_base.py, lines 21-25). -/
def beqDoc (self value : NoSQLDoc) : Bool :=
  if ¬ isinstance value self.cls then false
  else self.id = value.id

/-- `NoSQLBaseDocument.__hash__` (nosql_base.py, lines 27-28). -/
def hashDoc (d : NoSQLDoc) : Nat :=
  uuidHash d.id

end NoSQL

end WizAI

namespace WizAI.NoSQL

/-- Claim C10: two NoSQL documents are equal iff they are instances of the
same class with equal ids, every other field being ignored; the hash of a
document is the hash of its id, and equal documents hash equally. -/
theorem nosql_eq_hash_consistent (a b : NoSQLDoc) :
    (beqDoc a b = true ↔ a.cls = b.cls ∧ a.id = b.id) ∧
    hashDoc a = uuidHash a.id ∧
    (beqDoc a b = true → hashDoc a = hashDoc b) := by
  have hiff : beqDoc a b = true ↔ a.cls = b.cls ∧ a.id = b.id := by
    by_cases hc : a.cls = b.cls
    · simp [beqDoc, isinstance, hc]
    · have hc2 : ¬ (b.cls = a.cls) := fun h => hc h.symm
      simp [beqDoc, isinstance, hc, hc2]
  refine ⟨hiff, rfl, fun h => ?_⟩
  have hid := (hiff.mp h).2
  simp [hashDoc, hid]

end WizAI.NoSQL

namespace WizAI

/-! ## pydantic-ai installation agent
Embedded from `src/wiz_ai/agents/installation_assistant.py`. -/

namespace AgentV2

/-- One problem entry of the problems summary dictionary. -/
structure Problem where
  description : String
  status : String
deriving DecidableEq, Repr

/-- A Python dict preserving insertion order, as iterated by `.values()`:
an ordered association list from keys to problems. -/
abbrev ProblemsSummary := List (String × Problem)

/-- `convert_to_dict_format` (installation_assistant.py, lines 55-60):
zips the two parallel lists (truncating to the shorter) and names the
entries `problem_0`, `problem_1`, ... in order. -/
def convert_to_dict_format (descriptions statuses : List String) : ProblemsSummary :=
  ((descriptions.zip statuses).enum).map
    (fun p => (String.append "problem_" (toString p.1), Problem.mk p.2.1 p.2.2))

/-- The flattening step of `process_message` (lines 64-70): the dict values
are walked in iteration order, collecting parallel description and status
lists. -/
def flattenProblems (ps : ProblemsSummary) : List String × List String :=
  (ps.map (fun p => p.2.description), ps.map (fun p => p.2.status))

end AgentV2

end WizAI

namespace WizAI.AgentV2

/-- Shared helper: `zip` truncates to the shorter list, so taking each list
to the length of the other first changes nothing. -/
lemma zip_take_other {α β : Type} : ∀ (d : List α) (s : List β),
    d.zip s = (d.take s.length).zip (s.take d.length)
  | [], _ => by simp
  | _ :: _, [] => by simp
  | a :: d, b :: s => by
    simp only [List.length_cons, List.take_succ_cons, List.zip_cons_cons]
    rw [zip_take_other d s]

/-- Claim C9: flattening a problems mapping to parallel lists and rebuilding
it with `convert_to_dict_format` returns the same description/status pairs
in the same order under keys `problem_0` ... `problem_(n-1)` (a round trip
up to key renaming); and on lists of different lengths the result is
truncated to the shorter list, surplus entries being dropped. -/
theorem convert_to_dict_format_round_trip :
    (∀ ps : ProblemsSummary,
        convert_to_dict_format (flattenProblems ps).1 (flattenProblems ps).2 =
          ps.enum.map (fun p => (String.append "problem_" (toString p.1), p.2.2))) ∧
    (∀ descriptions statuses : List String,
        (convert_to_dict_format descriptions statuses).length =
          min descriptions.length statuses.length ∧
        convert_to_dict_format descriptions statuses =
          convert_to_dict_format (descriptions.take statuses.length)
            (statuses.take descriptions.length)) := by
  constructor
  · intro ps
    rw [convert_to_dict_format, flattenProblems]
    rw [List.zip_map']
    rw [List.enum_map]
    rw [List.map_map]
    rfl
  · intro d s
    refine ⟨?_, ?_⟩
    · rw [convert_to_dict_format, List.length_map, List.enum_length, List.length_zip]
    · rw [convert_to_dict_format, convert_to_dict_format, ← zip_take_other]

end WizAI.AgentV2

namespace WizAI.NoSQL

/-- Witness for the equality/hash theorem at two concrete `RawDocument`
instances sharing an id but differing in their other fields. -/
theorem nosql_eq_hash_witness :
    (beqDoc (NoSQLDoc.mk DocClass.rawDocument 5 [("platform", "discord")])
        (NoSQLDoc.mk DocClass.rawDocument 5 []) = true ↔
      DocClass.rawDocument = DocClass.rawDocument ∧ 5 = 5) ∧
    hashDoc (NoSQLDoc.mk DocClass.rawDocument 5 [("platform", "discord")]) =
      hashDoc (NoSQLDoc.mk DocClass.rawDocument 5 []) :=
  ⟨(nosql_eq_hash_consistent (NoSQLDoc.mk DocClass.rawDocument 5 [("platform", "discord")])
      (NoSQLDoc.mk DocClass.rawDocument 5 [])).1,
   (nosql_eq_hash_consistent (NoSQLDoc.mk DocClass.rawDocument 5 [("platform", "discord")])
      (NoSQLDoc.mk DocClass.rawDocument 5 [])).2.2 (by decide)⟩

end WizAI.NoSQL

namespace WizAI

/-! ## Discord bridge conversation turn
Embedded from `src/discord_agent.py` (the `Conversation` model and the
`on_message` turn).  Wall-clock timestamps (`timestamp`, `last_activity`)
are outside the embedding; attachments are carried as plain filename/url
records. -/

namespace Discord

/-- `State` enum of discord_agent.py (lines 29-32). -/
inductive DState where
  | start
  | in_progress
  | ended
deriving DecidableEq, Repr

/-- `Attachment` (lines 34-38). -/
structure Attachment where
  filename : String
  url : String
deriving DecidableEq, Repr

/-- `Message` (lines 40-45), minus the wall-clock timestamp. -/
structure DMessage where
  content : String
  author_id : Nat
  is_bot : Bool
  attachments : List Attachment
deriving DecidableEq, Repr

/-- `Conversation` (lines 47-53), minus `last_activity`.  The
`problems_summary` field holds the problems mapping handed to and returned
by `process_message`. -/
structure Conversation where
  messages : List DMessage
  user_id : Nat
  state : DState
  channel_id : Nat
  problems_summary : AgentV2.ProblemsSummary
deriving DecidableEq, Repr

/-- `Conversation.add_message` (lines 55-77): appends the message; no other
field of the conversation changes. -/
def addMessage (conv : Conversation) (content : String) (author_id : Nat) (is_bot : Bool)
    (attachments : List Attachment) : Conversation :=
  { conv with messages := conv.messages ++ [DMessage.mk content author_id is_bot attachments] }

/-- The outcome of `process_message` (installation_assistant.py, lines
62-105): either the model run succeeds with a response text and an updated
problems mapping, or it raises (for example when the
`UsageLimits(request_limit=2, total_tokens_limit=2000)` budget is
exceeded); the external model run is the oracle. -/
abbrev TurnOutcome := Except Unit (String × AgentV2.ProblemsSummary)

/-- The mutations `on_message` (discord_agent.py, lines 151-203) applies to
an existing active conversation for one inbound message: the user message
is appended first (lines 169-174); then `process_message` runs, and only
on success are `problems_summary` updated and the bot reply appended
(lines 177-189).  A raised exception propagates out of the handler, so on
failure the function returns the state as of the pre-call append. -/
def onMessageTurn (conv : Conversation) (content : String) (author_id : Nat)
    (attachments : List Attachment) (outcome : TurnOutcome) : Conversation :=
  let conv1 := addMessage conv content author_id false attachments
  match outcome with
  | Except.error _ => conv1
  | Except.ok (response_text, updated_problems_summary) =>
      addMessage { conv1 with problems_summary := updated_problems_summary }
        response_text author_id true []

end Discord

end WizAI

namespace WizAI.Discord

/-- Claim C7 counterexample: a failing turn does commit a partial mutation.
From a fresh conversation with no messages, a turn whose model call fails
(budget exceeded) leaves a conversation that differs from the pre-turn
state: the inbound user message has been appended. -/
theorem failed_turn_mutates_messages :
    onMessageTurn (Conversation.mk [] 7 DState.start 1 []) "hi" 7 [] (Except.error ()) ≠
      Conversation.mk [] 7 DState.start 1 [] ∧
    (onMessageTurn (Conversation.mk [] 7 DState.start 1 []) "hi" 7 [] (Except.error ())).messages =
      [DMessage.mk "hi" 7 false []] := by
  constructor
  · decide
  · rfl

/-- Claim C7 amended: on a mid-turn failure the outputs of the turn are not
committed: `problems_summary` and `state` (and everything else except the
message log) are exactly as before the turn; the only committed mutation is
the inbound user message appended before processing began.  On success the
summary update and bot reply are committed together. -/
theorem failed_turn_all_or_nothing (conv : Conversation) (content : String)
    (author_id : Nat) (attachments : List Attachment) :
    (onMessageTurn conv content author_id attachments (Except.error ()) =
        addMessage conv content author_id false attachments) ∧
    ((onMessageTurn conv content author_id attachments
        (Except.error ())).problems_summary = conv.problems_summary) ∧
    ((onMessageTurn conv content author_id attachments (Except.error ())).state =
        conv.state) ∧
    (∀ r ps, (onMessageTurn conv content author_id attachments
        (Except.ok (r, ps))).problems_summary = ps) :=
  ⟨rfl, rfl, rfl, fun _ _ => rfl⟩

end WizAI.Discord

namespace WizAI

/-! ## Text normalizer
Embedded from `RawDocument.clean_text` and `RawDocument.clean`
(`src/wiz_ai/models/base/documents.py`, lines 21-33).  Python strings are
`List Char`; the regex character class `\w` is modelled at the ASCII level
(letters, digits, underscore). -/

namespace Cleaner

/-- Python regex `\s` (ASCII whitespace: space, tab, newline, carriage
return, vertical tab, form feed). -/
def isPySpace (c : Char) : Bool :=
  c = ' ' || c = '\t' || c = '\n' || c = '\r' || c = Char.ofNat 11 || c = Char.ofNat 12

/-- Python regex `\w` (ASCII model: letters, digits, underscore). -/
def isPyWordChar (c : Char) : Bool :=
  c.isAlphanum || c = '_'

/-- The basic punctuation the cleaner keeps. -/
def isKeptPunct (c : Char) : Bool :=
  c = '.' || c = ',' || c = '!' || c = '?'

/-- One character of `re.sub(r"[^\w\s.,!?]", " ", text)`: a character
outside the kept class becomes a space. -/
def replaceDisallowed (c : Char) : Char :=
  if isPyWordChar c || isPySpace c || isKeptPunct c then c else ' '

/-- `re.sub(r"\s+", " ", text)`: every maximal whitespace run becomes one
single space character. -/
def collapseWs : List Char → List Char
  | [] => []
  | [c] => [if isPySpace c then ' ' else c]
  | c1 :: c2 :: cs =>
      if isPySpace c1 && isPySpace c2 then collapseWs (c2 :: cs)
      else (if isPySpace c1 then ' ' else c1) :: collapseWs (c2 :: cs)

/-- Python `str.strip()`: drop whitespace from both ends. -/
def pyStrip (l : List Char) : List Char :=
  ((l.dropWhile isPySpace).reverse.dropWhile isPySpace).reverse

/-- `RawDocument.clean_text` (documents.py, lines 21-25). -/
def clean_text (text : List Char) : List Char :=
  pyStrip (collapseWs (text.map replaceDisallowed))

/-- Python `" #### ".flatten(parts)`. -/
def joinSep (sep : List Char) : List (List Char) → List Char
  | [] => []
  | [x] => x
  | x :: xs => x ++ sep ++ joinSep sep xs

/-- `RawDocument.clean` content normalization (documents.py, lines 27-33):
the non-None values of the content dict, joined with a `" #### "`
separator, then cleaned. -/
def cleanContent (content : List (String × Option (List Char))) : List Char :=
  clean_text (joinSep (String.toList " #### ") ((content.map Prod.snd).reduceOption))

/-- The adjacency relation of the collapsed invariant: no two neighbouring
whitespace characters. -/
def NoTwoSpaces (a b : Char) : Prop :=
  ¬ (isPySpace a = true ∧ isPySpace b = true)

/-- The CleanedText invariant of the specification: only word characters,
the four kept punctuation marks and single spaces; whitespace collapsed
(no two adjacent whitespace characters); no leading or trailing
whitespace. -/
def CleanedInvariant (l : List Char) : Prop :=
  (∀ c ∈ l, isPyWordChar c = true ∨ isKeptPunct c = true ∨ c = ' ') ∧
  List.Chain' NoTwoSpaces l ∧
  (∀ c, l.head? = some c → isPySpace c = false) ∧
  (∀ c, l.getLast? = some c → isPySpace c = false)

/-- Shared helper: collapsing keeps a non-whitespace head as is. -/
lemma collapseWs_cons_nonspace (c : Char) (cs : List Char) (h : isPySpace c = false) :
    collapseWs (c :: cs) = c :: collapseWs cs := by
  cases cs <;> simp [collapseWs, h]

/-- Shared helper: every character of a collapsed list is a single space or
a non-whitespace character of the input. -/
lemma collapseWs_mem : ∀ l : List Char, ∀ c ∈ collapseWs l,
    c = ' ' ∨ (c ∈ l ∧ isPySpace c = false) := by
  intro l
  induction l with
  | nil => intro c hc; exact absurd hc (by simp [collapseWs])
  | cons c1 cs ih =>
    intro c hc
    cases cs with
    | nil =>
      rcases hsp : isPySpace c1 with _ | _ <;> simp [collapseWs, hsp] at hc
      · subst hc; exact Or.inr ⟨by simp, hsp⟩
      · subst hc; exact Or.inl rfl
    | cons c2 cs2 =>
      by_cases hb : (isPySpace c1 && isPySpace c2) = true
      · rw [collapseWs, if_pos hb] at hc
        rcases ih c hc with h | ⟨hm, hs⟩
        · exact Or.inl h
        · exact Or.inr ⟨List.mem_cons_of_mem _ hm, hs⟩
      · rw [collapseWs, if_neg hb] at hc
        rcases List.mem_cons.mp hc with h | h
        · rcases hsp : isPySpace c1 with _ | _
          · simp [hsp] at h; subst h
            exact Or.inr ⟨List.mem_cons_self _ _, hsp⟩
          · simp [hsp] at h; subst h; exact Or.inl rfl
        · rcases ih c h with h2 | ⟨hm, hs⟩
          · exact Or.inl h2
          · exact Or.inr ⟨List.mem_cons_of_mem _ hm, hs⟩

/-- Shared helper: a collapsed list never has two adjacent whitespace
characters. -/
lemma collapseWs_chain : ∀ l : List Char, List.Chain' NoTwoSpaces (collapseWs l) := by
  intro l
  induction l with
  | nil => simp [collapseWs]
  | cons c1 cs ih =>
    cases cs with
    | nil => rcases hsp : isPySpace c1 with _ | _ <;> simp [collapseWs, hsp]
    | cons c2 cs2 =>
      by_cases hb : (isPySpace c1 && isPySpace c2) = true
      · rw [collapseWs, if_pos hb]; exact ih
      · rw [collapseWs, if_neg hb]
        refine List.chain'_cons'.mpr ⟨?_, ih⟩
        intro y hy
        rcases hsp1 : isPySpace c1 with _ | _
        · rw [if_neg (by simp [hsp1])]
          exact fun hcon => by rw [hsp1] at hcon; exact absurd hcon.1 (by simp)
        · rw [if_pos (by simp [hsp1])]
          have hsp2 : isPySpace c2 = false := by
            rcases h2 : isPySpace c2 with _ | _
            · rfl
            · exact absurd (by rw [hsp1, h2]; rfl) hb
          rw [collapseWs_cons_nonspace c2 cs2 hsp2] at hy
          simp at hy
          subst hy
          exact fun hcon => by rw [hsp2] at hcon; exact absurd hcon.2 (by simp)

/-- Shared helper: the head of a `dropWhile` result fails the predicate. -/
lemma head?_dropWhile_not (p : Char → Bool) :
    ∀ l : List Char, ∀ c, (l.dropWhile p).head? = some c → p c = false := by
  intro l
  induction l with
  | nil => intro c hc; simp at hc
  | cons a t ih =>
    intro c hc
    rcases hp : p a with _ | _
    · rw [List.dropWhile_cons, hp] at hc
      simp at hc
      rw [← hc]; exact hp
    · rw [List.dropWhile_cons, hp] at hc
      simp only [if_pos rfl] at hc
      exact ih c hc

/-- Shared helper: when a `dropWhile` result is nonempty its last element
is the last element of the input. -/
lemma getLast?_dropWhile (p : Char → Bool) :
    ∀ l : List Char, ∀ c, (l.dropWhile p).getLast? = some c → l.getLast? = some c := by
  intro l
  induction l with
  | nil => intro c hc; simp at hc
  | cons a t ih =>
    intro c hc
    rcases hp : p a with _ | _
    · rw [List.dropWhile_cons, hp] at hc
      exact hc
    · rw [List.dropWhile_cons, hp] at hc
      have ht := ih c hc
      cases t with
      | nil => simp at ht
      | cons b t2 => rw [List.getLast?_cons_cons]; exact ht

/-- Shared helper: membership survives `dropWhile`. -/
lemma mem_of_mem_dropWhile (p : Char → Bool) :
    ∀ l : List Char, ∀ c, c ∈ l.dropWhile p → c ∈ l := by
  intro l
  induction l with
  | nil => intro c hc; simp at hc
  | cons a t ih =>
    intro c hc
    rcases hp : p a with _ | _
    · rw [List.dropWhile_cons, hp] at hc; exact hc
    · rw [List.dropWhile_cons, hp] at hc
      exact List.mem_cons_of_mem _ (ih c hc)

/-- Shared helper: `dropWhile` preserves the no-two-adjacent-spaces chain. -/
lemma chain'_dropWhile (p : Char → Bool) :
    ∀ l : List Char, List.Chain' NoTwoSpaces l →
      List.Chain' NoTwoSpaces (l.dropWhile p) := by
  intro l
  induction l with
  | nil => intro h; simp
  | cons a t ih =>
    intro h
    rcases hp : p a with _ | _
    · rw [List.dropWhile_cons, hp]; exact h
    · rw [List.dropWhile_cons, hp]
      exact ih h.tail

/-- Shared helper: the no-two-adjacent-spaces chain is symmetric, so it
survives list reversal. -/
lemma chain'_reverse_noTwoSpaces (l : List Char) (h : List.Chain' NoTwoSpaces l) :
    List.Chain' NoTwoSpaces l.reverse := by
  rw [List.chain'_reverse]
  exact h.imp (fun a b hab => fun hcon => hab ⟨hcon.2, hcon.1⟩)

end Cleaner

end WizAI

namespace WizAI.Cleaner

/-- Shared helper: the first substitution only produces characters of the
kept classes (a disallowed character becomes a space). -/
lemma replaceDisallowed_class (c : Char) :
    (isPyWordChar (replaceDisallowed c) || isPySpace (replaceDisallowed c) ||
      isKeptPunct (replaceDisallowed c)) = true := by
  rw [replaceDisallowed]
  split
  · rename_i h
    exact h
  · decide

/-- Shared helper: the full cleaning chain establishes the CleanedText
invariant. -/
lemma clean_text_invariant (text : List Char) : CleanedInvariant (clean_text text) := by
  rw [clean_text, pyStrip]
  refine ⟨?_, ?_, ?_, ?_⟩
  · intro c hc
    rw [List.mem_reverse] at hc
    have hc2 := mem_of_mem_dropWhile _ _ _ hc
    rw [List.mem_reverse] at hc2
    have hc3 := mem_of_mem_dropWhile _ _ _ hc2
    rcases collapseWs_mem _ c hc3 with h | ⟨hm, hns⟩
    · exact Or.inr (Or.inr h)
    · rcases List.mem_map.mp hm with ⟨c0, _, hrep⟩
      have hcl := replaceDisallowed_class c0
      rw [hrep] at hcl
      rcases hw : isPyWordChar c with _ | _
      · rcases hk : isKeptPunct c with _ | _
        · rw [hw, hns, hk] at hcl
          exact absurd hcl (by simp)
        · exact Or.inr (Or.inl rfl)
      · exact Or.inl rfl
  · exact chain'_reverse_noTwoSpaces _
      (chain'_dropWhile _ _
        (chain'_reverse_noTwoSpaces _
          (chain'_dropWhile _ _ (collapseWs_chain _))))
  · intro c hc
    rw [List.head?_reverse] at hc
    have h2 := getLast?_dropWhile _ _ _ hc
    rw [List.getLast?_reverse] at h2
    exact head?_dropWhile_not _ _ _ h2
  · intro c hc
    rw [List.getLast?_reverse] at hc
    exact head?_dropWhile_not _ _ _ hc

end WizAI.Cleaner

namespace WizAI.Cleaner

/-- Claim C8: every cleaned text satisfies the CleanedText invariant: it
only contains word characters, the punctuation marks . , ! ?, and single
spaces; whitespace runs are collapsed so no two adjacent characters are
whitespace; and there is no leading or trailing whitespace.  This holds
for `clean_text` on any input and hence for the normalized content of
`RawDocument.clean` (in the functional embedding the produced string is a
value, so no consumer can mutate it). -/
theorem clean_text_cleaned (text : List Char)
    (content : List (String × Option (List Char))) :
    CleanedInvariant (clean_text text) ∧ CleanedInvariant (cleanContent content) :=
  ⟨clean_text_invariant text, clean_text_invariant _⟩

end WizAI.Cleaner

namespace WizAI.Cleaner

/-- Witness for the cleaning invariant at a concrete raw text with
disallowed characters and redundant whitespace. -/
theorem clean_text_cleaned_witness :
    CleanedInvariant (clean_text (String.toList "  Hello,   world!* ")) :=
  (clean_text_cleaned (String.toList "  Hello,   world!* ") []).1

end WizAI.Cleaner

namespace WizAI

/-! ## Notion knowledge base: segmentation and vector store
Embedded from `src/wiz_ai/models/notion/knowledge_base.py` and
`src/notion_to_qdrant.py`.  The vector-store primitives (`search`,
`bulk_insert`, the qdrant delete) live in `vector_base.py` /
`connectors/qdrant.py`, which are not part of the sources; they are
modelled from the specification (section 6 interface contracts). -/

namespace Notion

/-- Python `text.split(chr(10))`: split on newline characters, keeping
empty segments; never returns an empty list. -/
def pySplitNl : List Char → List (List Char)
  | [] => [[]]
  | c :: cs =>
    if c = '\n' then [] :: pySplitNl cs
    else
      match pySplitNl cs with
      | [] => [[c]]
      | h :: t => (c :: h) :: t

/-- Python `line.startswith(chr(35))`. -/
def lineStartsWithHash : List Char → Bool
  | [] => false
  | c :: _ => c = '#'

/-- The separator test of `to_vector_documents` (knowledge_base.py, line
263): a line is a separator when it starts with a hash mark or strips to
three dashes. -/
def lineIsSep (line : List Char) : Bool :=
  lineStartsWithHash line || (Cleaner.pyStrip line = String.toList "---")

/-- The loop state of `to_vector_documents`: emitted chunks, the current
chunk (a list of line strings) and `current_size`. -/
structure ChunkAcc where
  chunks : List (List Char)
  cur : List (List Char)
  size : Nat
deriving DecidableEq, Repr

/-- One iteration of the line loop of `to_vector_documents`
(knowledge_base.py, lines 261-280): flush the current chunk when a
separator would overflow it, append the line (with its newline), and flush
as soon as `current_size` reaches `chunk_size`. -/
def tvdStep (chunk_size : Nat) (acc : ChunkAcc) (line : List Char) : ChunkAcc :=
  let lineN := line ++ ['\n']
  let lsize := lineN.length
  let acc1 :=
    if lineIsSep line = true ∧ acc.cur ≠ [] ∧ acc.size + lsize > chunk_size then
      ChunkAcc.mk (acc.chunks ++ [acc.cur.flatten]) [] 0
    else acc
  let cur := acc1.cur ++ [lineN]
  let size := acc1.size + lsize
  if size ≥ chunk_size then ChunkAcc.mk (acc1.chunks ++ [cur.flatten]) [] 0
  else ChunkAcc.mk acc1.chunks cur size

/-- The chunk texts produced by `to_vector_documents` (lines 243-286): the
title/summary header seeds the current chunk, the lines are folded through
`tvdStep`, and a nonempty remainder becomes the final chunk.  The source
interleaves `_create_vector_doc` calls with the loop; collecting the chunk
texts first and mapping the constructor afterwards is the same
computation. -/
def chunkLines (chunk_size : Nat) (header : List Char) (lines : List (List Char)) :
    List (List Char) :=
  let acc := lines.foldl (tvdStep chunk_size) (ChunkAcc.mk [] [header] header.length)
  if acc.cur ≠ [] then acc.chunks ++ [acc.cur.flatten] else acc.chunks

/-- `KnowledgeBaseDocument` (knowledge_base.py, lines 108-117 plus the
`NotionBaseDocument` identity fields).  `id` is the UUID4 of the document
(kept abstract as a string), `content` the markdown fetched from Notion
(`None` before `update_content`). -/
structure KnowledgeBaseDocument where
  notion_id : String
  id : String
  title : List Char
  summary : List Char
  categories : List String
  status : String
  deprecated : Bool
  author : Option String
  content : Option (List Char)
deriving DecidableEq, Repr

/-- `hashlib.md5(content).hexdigest()` (knowledge_base.py, line 47),
modelled as a collision-free deterministic digest of the content. -/
def content_hash (content : List Char) : List Char := content

/-- `uuid.uuid5(namespace, name)` (line 49), modelled as the collision-free
deterministic pair of namespace and name. -/
def uuid5 (namespaceId : String) (name : List Char) : String × List Char :=
  (namespaceId, name)

/-- Modelled from the spec: the black-box fixed-dimension embedding
function of the Embedder Adapter (`networks.py` is not among the sources);
only its determinism matters here. -/
def embedText (content : List Char) : List Int :=
  [Int.ofNat content.length]

/-- The metadata payload built by `_create_vector_doc` (lines 294-300). -/
structure NKVMeta where
  notion_id : String
  title : List Char
  categories : List String
  status : String
  deprecated : Bool
deriving DecidableEq, Repr

/-- `NotionKnowledgeVectorDocument` (knowledge_base.py, lines 32-55): the
deterministic id is `uuid5(document_id, md5(content))` computed by
`__init__`, the embedding is computed from the content. -/
structure NKVDoc where
  id : String × List Char
  content : List Char
  metadata : NKVMeta
  document_id : String
  platform : String
  author : String
  embedding : List Int
deriving DecidableEq, Repr

/-- `_create_vector_doc` (lines 288-301) combined with the
`NotionKnowledgeVectorDocument.__init__` id/embedding derivation (lines
41-55): the content is stripped, the id is `uuid5` of the document id and
the content hash, the metadata carries the notion id. -/
def createVectorDoc (doc : KnowledgeBaseDocument) (content : List Char) : NKVDoc :=
  let stripped := Cleaner.pyStrip content
  { id := uuid5 doc.id (content_hash stripped)
    content := stripped
    metadata := NKVMeta.mk doc.notion_id doc.title doc.categories doc.status doc.deprecated
    document_id := doc.id
    platform := "notion"
    author := doc.author.getD "Unknown"
    embedding := embedText stripped }

/-- The default `chunk_size` of `to_vector_documents` (line 243). -/
def defaultChunkSize : Nat := 1000

/-- The title/summary header of line 250. -/
def headerOf (doc : KnowledgeBaseDocument) : List Char :=
  String.toList "# " ++ doc.title ++ String.toList "\n\n" ++ doc.summary ++
    String.toList "\n\n"

/-- `to_vector_documents` (knowledge_base.py, lines 243-286): empty or
missing content yields the single header chunk (lines 254-256); otherwise
the content is split into lines and chunked. -/
def to_vector_documents (doc : KnowledgeBaseDocument) (chunk_size : Nat) : List NKVDoc :=
  let header := headerOf doc
  match doc.content with
  | none => [createVectorDoc doc header]
  | some c =>
      if c = [] then [createVectorDoc doc header]
      else (chunkLines chunk_size header (pySplitNl c)).map (createVectorDoc doc)

/-- The vector store, a list of stored points. -/
abbrev Store := List NKVDoc

/-- `delete_by_notion_id` (knowledge_base.py, lines 81-106): a filtered
bulk delete of every point whose `metadata.notion_id` matches.  The
search-first existence check of lines 93-97 only skips an empty delete and
does not change the resulting store. -/
def delete_by_notion_id (nid : String) (S : Store) : Store :=
  S.filter (fun p => p.metadata.notion_id ≠ nid)

/-- Modelled from the spec: `bulk_upsert` into the vector store is keyed by
point id (an upsert of an existing id replaces the stored point);
`vector_base.py` is not among the sources. -/
def upsertPoint (S : Store) (p : NKVDoc) : Store :=
  S.filter (fun q => q.id ≠ p.id) ++ [p]

/-- `NotionKnowledgeVectorDocument.bulk_insert` over a fresh chunk list,
modelled from the spec as a bulk upsert. -/
def bulk_insert (S : Store) (ps : List NKVDoc) : Store :=
  ps.foldl upsertPoint S

/-- One document iteration of `process_knowledge_base_docs`
(notion_to_qdrant.py, lines 28-50): delete stale vectors by the stable
notion id, then insert the freshly computed chunk documents.  The content
fetched by `update_content` is the `content` field of `doc`. -/
def reindex (S : Store) (doc : KnowledgeBaseDocument) : Store :=
  bulk_insert (delete_by_notion_id doc.notion_id S) (to_vector_documents doc defaultChunkSize)

end Notion

end WizAI

namespace WizAI.Notion

/-- Shared helper: after any loop iteration either a chunk has been emitted
or the current chunk is nonempty (the processed line was just appended). -/
lemma tvdStep_nonempty (chunk_size : Nat) (acc : ChunkAcc) (line : List Char) :
    (tvdStep chunk_size acc line).chunks ≠ [] ∨ (tvdStep chunk_size acc line).cur ≠ [] := by
  rw [tvdStep]
  split
  · split
    · exact Or.inl (by simp)
    · exact Or.inr (by simp)
  · split
    · exact Or.inl (by simp)
    · exact Or.inr (by simp)

/-- Shared helper: the loop preserves chunk-or-current nonemptiness. -/
lemma foldl_tvdStep_nonempty (chunk_size : Nat) :
    ∀ (ls : List (List Char)) (acc : ChunkAcc),
      (acc.chunks ≠ [] ∨ acc.cur ≠ []) →
      ((ls.foldl (tvdStep chunk_size) acc).chunks ≠ [] ∨
        (ls.foldl (tvdStep chunk_size) acc).cur ≠ []) := by
  intro ls
  induction ls with
  | nil => intro acc h; exact h
  | cons l ls ih =>
    intro acc _
    exact ih (tvdStep chunk_size acc l) (tvdStep_nonempty chunk_size acc l)

/-- Shared helper: segmentation always produces at least one chunk text. -/
lemma chunkLines_ne_nil (chunk_size : Nat) (header : List Char) (lines : List (List Char)) :
    chunkLines chunk_size header lines ≠ [] := by
  rw [chunkLines]
  have h := foldl_tvdStep_nonempty chunk_size lines (ChunkAcc.mk [] [header] header.length)
    (Or.inr (by simp))
  split
  · simp
  · rename_i hcur
    rcases h with h | h
    · exact h
    · exact absurd h (by simpa using hcur)

end WizAI.Notion

namespace WizAI.Notion

/-- Claim C6: a source document with empty (or missing) content segments to
exactly one chunk, the stripped title/summary header chunk carrying the
provenance of the document; and segmentation never returns zero chunks. -/
theorem empty_input_single_chunk (doc : KnowledgeBaseDocument) (chunk_size : Nat) :
    (doc.content = none ∨ doc.content = some [] →
      to_vector_documents doc chunk_size = [createVectorDoc doc (headerOf doc)]) ∧
    to_vector_documents doc chunk_size ≠ [] := by
  constructor
  · intro h
    rcases h with h | h <;> rw [to_vector_documents, h]
    simp
  · rw [to_vector_documents]
    rcases doc.content with _ | c
    · simp
    · show (if c = [] then [createVectorDoc doc (headerOf doc)]
        else (chunkLines chunk_size (headerOf doc) (pySplitNl c)).map
          (createVectorDoc doc)) ≠ []
      by_cases hc : c = []
      · rw [if_pos hc]; simp
      · rw [if_neg hc]
        simp only [ne_eq, List.map_eq_nil_iff]
        exact chunkLines_ne_nil _ _ _

/-- Witness for the empty-content theorem: a concrete document without
content yields exactly its header chunk, whose provenance fields are those
of the document. -/
theorem empty_input_single_chunk_witness :
    to_vector_documents
        (KnowledgeBaseDocument.mk "n0" "d0" (String.toList "T") (String.toList "S")
          [] "Draft" false none none) 1000 =
      [createVectorDoc
        (KnowledgeBaseDocument.mk "n0" "d0" (String.toList "T") (String.toList "S")
          [] "Draft" false none none)
        (headerOf (KnowledgeBaseDocument.mk "n0" "d0" (String.toList "T") (String.toList "S")
          [] "Draft" false none none))] :=
  (empty_input_single_chunk _ 1000).1 (Or.inl rfl)

end WizAI.Notion

namespace WizAI.Notion

/-- The largest line size (newline included) of a line list. -/
def maxLineSize (lines : List (List Char)) : Nat :=
  lines.foldr (fun l m => max (l.length + 1) m) 0

/-- Shared helper: every line is bounded by the maximal line size. -/
lemma le_maxLineSize : ∀ (lines : List (List Char)) (l : List Char),
    l ∈ lines → l.length + 1 ≤ maxLineSize lines := by
  intro lines
  induction lines with
  | nil => intro l h; simp at h
  | cons a t ih =>
    intro l h
    rcases List.mem_cons.mp h with h | h
    · subst h; exact le_max_left _ _
    · exact le_trans (ih l h) (le_max_right _ _)

/-- Shared helper: `dropWhile` never lengthens a list. -/
lemma length_dropWhile_le (p : Char → Bool) :
    ∀ l : List Char, (l.dropWhile p).length ≤ l.length := by
  intro l
  induction l with
  | nil => simp
  | cons a t ih =>
    rcases hp : p a with _ | _
    · rw [List.dropWhile_cons, hp]; simp
    · rw [List.dropWhile_cons, hp]
      simp only [if_pos rfl]
      exact le_trans ih (by simp)

/-- Shared helper: stripping never lengthens a string. -/
lemma pyStrip_length_le (l : List Char) : (Cleaner.pyStrip l).length ≤ l.length := by
  rw [Cleaner.pyStrip]
  rw [List.length_reverse]
  refine le_trans (length_dropWhile_le _ _) ?_
  rw [List.length_reverse]
  exact length_dropWhile_le _ _

/-- Shared helper: one loop iteration preserves the size/bound invariant:
the running size is the length of the current chunk, it stays below
`chunk_size + H` (H the header length), and every emitted chunk is shorter
than `chunk_size + H + M` (M the maximal line size). -/
lemma tvdStep_bound (cs H M : Nat) (_hcs : 0 < cs) (acc : ChunkAcc) (line : List Char)
    (hM : line.length + 1 ≤ M)
    (h1 : acc.size = acc.cur.flatten.length)
    (h2 : acc.size < cs + H)
    (h3 : ∀ ch ∈ acc.chunks, ch.length < cs + H + M) :
    (tvdStep cs acc line).size = (tvdStep cs acc line).cur.flatten.length ∧
    (tvdStep cs acc line).size < cs + H ∧
    ∀ ch ∈ (tvdStep cs acc line).chunks, ch.length < cs + H + M := by
  have hlineN : (line ++ ['\n']).length = line.length + 1 := by simp
  have hflat : (acc.cur ++ [line ++ ['\n']]).flatten.length =
      acc.cur.flatten.length + (line ++ ['\n']).length := by simp
  simp only [tvdStep]
  split
  · split
    · dsimp only
      refine ⟨by simp, by omega, ?_⟩
      intro ch hch
      simp only [List.append_assoc, List.mem_append, List.mem_singleton] at hch
      rcases hch with h | h | h
      · exact h3 ch h
      · subst h; omega
      · subst h
        simp only [List.nil_append, List.flatten_cons, List.flatten_nil,
          List.append_nil]
        omega
    · rename_i hnot
      dsimp only
      simp only [ge_iff_le, not_le] at hnot
      refine ⟨by simp, by omega, ?_⟩
      intro ch hch
      simp only [List.mem_append, List.mem_singleton] at hch
      rcases hch with h | h
      · exact h3 ch h
      · subst h; omega
  · split
    · dsimp only
      refine ⟨by simp, by omega, ?_⟩
      intro ch hch
      simp only [List.mem_append, List.mem_singleton] at hch
      rcases hch with h | h
      · exact h3 ch h
      · subst h
        rw [hflat]
        omega
    · rename_i hnot
      dsimp only
      simp only [ge_iff_le, not_le] at hnot
      refine ⟨?_, by omega, h3⟩
      rw [hflat]
      omega

/-- Shared helper: the fold preserves the size/bound invariant. -/
lemma foldl_tvdStep_bound (cs H M : Nat) (hcs : 0 < cs) :
    ∀ (ls : List (List Char)) (acc : ChunkAcc),
      (∀ l ∈ ls, l.length + 1 ≤ M) →
      acc.size = acc.cur.flatten.length →
      acc.size < cs + H →
      (∀ ch ∈ acc.chunks, ch.length < cs + H + M) →
      (ls.foldl (tvdStep cs) acc).size = (ls.foldl (tvdStep cs) acc).cur.flatten.length ∧
      (ls.foldl (tvdStep cs) acc).size < cs + H ∧
      ∀ ch ∈ (ls.foldl (tvdStep cs) acc).chunks, ch.length < cs + H + M := by
  intro ls
  induction ls with
  | nil => intro acc _ h1 h2 h3; exact ⟨h1, h2, h3⟩
  | cons l ls ih =>
    intro acc hM h1 h2 h3
    have hstep := tvdStep_bound cs H M hcs acc l (hM l (by simp)) h1 h2 h3
    exact ih (tvdStep cs acc l) (fun x hx => hM x (by simp [hx]))
      hstep.1 hstep.2.1 hstep.2.2

/-- Shared helper: every chunk text is shorter than
`chunk_size + header length + maximal line size`. -/
lemma chunkLines_bound (cs : Nat) (hcs : 0 < cs) (header : List Char)
    (lines : List (List Char)) :
    ∀ ch ∈ chunkLines cs header lines,
      ch.length < cs + header.length + maxLineSize lines := by
  intro ch hch
  rw [chunkLines] at hch
  have hfold := foldl_tvdStep_bound cs header.length (maxLineSize lines) hcs lines
    (ChunkAcc.mk [] [header] header.length)
    (fun l hl => le_maxLineSize lines l hl)
    (by simp) (by dsimp only; omega) (by simp)
  rcases hfold with ⟨hf1, hf2, hf3⟩
  revert hch
  split
  · intro hch
    rcases List.mem_append.mp hch with h | h
    · exact hf3 ch h
    · simp at h
      subst h
      omega
  · intro hch
    exact hf3 ch hch

end WizAI.Notion

namespace WizAI.Notion

/-- Claim C5 (amended): every produced chunk is made of whole input lines
and is flushed as soon as its running size reaches `chunk_size`, so a
chunk can overshoot the bound only by its final line (plus, for the first
chunk, the title/summary header that is seeded regardless of its size):
the content of each chunk is strictly shorter than `chunk_size + header length
+ maximal line size`, and no chunk is ever re-split. -/
theorem chunk_size_bound_amended (doc : KnowledgeBaseDocument) (cs : Nat) (hcs : 0 < cs) :
    ∀ p ∈ to_vector_documents doc cs,
      p.content.length <
        cs + (headerOf doc).length + maxLineSize (pySplitNl (doc.content.getD [])) := by
  intro p hp
  rw [to_vector_documents] at hp
  rcases hdoc : doc.content with _ | c
  · rw [hdoc] at hp
    simp at hp
    subst hp
    have hstrip := pyStrip_length_le (headerOf doc)
    simp only [createVectorDoc, content_hash]
    omega
  · rw [hdoc] at hp
    by_cases hc : c = []
    · subst hc
      simp at hp
      subst hp
      have hstrip := pyStrip_length_le (headerOf doc)
      simp only [createVectorDoc, content_hash]
      omega
    · have hp2 : p ∈ (chunkLines cs (headerOf doc) (pySplitNl c)).map
          (createVectorDoc doc) := by simpa [hc] using hp
      rcases List.mem_map.mp hp2 with ⟨ch, hch, hpe⟩
      have hb := chunkLines_bound cs hcs (headerOf doc) (pySplitNl c) ch hch
      have hstrip := pyStrip_length_le ch
      subst hpe
      simp only [createVectorDoc, content_hash, Option.getD_some]
      omega

end WizAI.Notion

namespace WizAI.Notion

/-- A knowledge-base document whose content is two 600-character lines
around a `---` divider line. -/
def oversizedDoc : KnowledgeBaseDocument :=
  { notion_id := "n1"
    id := "d1"
    title := String.toList "T"
    summary := String.toList "S"
    categories := []
    status := "Published"
    deprecated := false
    author := none
    content := some (List.replicate 600 'a' ++ String.toList "\n---\n" ++
      List.replicate 600 'b') }

set_option maxRecDepth 10000 in
/-- Claim C5 counterexample: with the default chunk size 1000, segmenting
`oversizedDoc` produces exactly one chunk of 1213 characters, above the
configured bound, even though each of its lines is well under the bound
and the chunk spans two structural sections (it contains the `---` divider
as an interior line), so it is not a structurally-atomic section kept
whole. -/
theorem chunk_size_bound_counterexample :
    ((to_vector_documents oversizedDoc defaultChunkSize).map
        (fun p => p.content.length) = [1213]) ∧
    defaultChunkSize < 1213 ∧
    ((to_vector_documents oversizedDoc defaultChunkSize).map
        (fun p => pySplitNl p.content) =
      [[String.toList "# T", [], String.toList "S", [], List.replicate 600 'a',
        String.toList "---", List.replicate 600 'b']]) := by
  refine ⟨by decide, by decide, by decide⟩

/-- Witness for the amended bound theorem at a concrete document: the
single header chunk of an empty document obeys the amended bound. -/
theorem chunk_size_bound_amended_witness :
    (createVectorDoc
        (KnowledgeBaseDocument.mk "n0" "d0" (String.toList "T") (String.toList "S")
          [] "Draft" false none none)
        (headerOf (KnowledgeBaseDocument.mk "n0" "d0" (String.toList "T")
          (String.toList "S") [] "Draft" false none none))).content.length <
      1000 + (headerOf (KnowledgeBaseDocument.mk "n0" "d0" (String.toList "T")
          (String.toList "S") [] "Draft" false none none)).length +
        maxLineSize (pySplitNl (((KnowledgeBaseDocument.mk "n0" "d0" (String.toList "T")
          (String.toList "S") [] "Draft" false none none).content).getD [])) :=
  chunk_size_bound_amended
    (KnowledgeBaseDocument.mk "n0" "d0" (String.toList "T") (String.toList "S")
      [] "Draft" false none none) 1000 (by decide) _ (by decide)

end WizAI.Notion

namespace WizAI.Notion

/-- Shared helper: a bulk upsert into any store is the store minus the
upserted ids, followed by the bulk upsert into the empty store. -/
lemma bulk_insert_eq : ∀ (ps : List NKVDoc) (S : Store),
    bulk_insert S ps =
      S.filter (fun q => q.id ∉ ps.map NKVDoc.id) ++ bulk_insert [] ps := by
  intro ps
  induction ps with
  | nil =>
    intro S
    simp [bulk_insert]
  | cons p ps ih =>
    intro S
    have hl : bulk_insert S (p :: ps) = bulk_insert (upsertPoint S p) ps := rfl
    have hr : bulk_insert [] (p :: ps) = bulk_insert (upsertPoint [] p) ps := rfl
    have hup : upsertPoint ([] : Store) p = [p] := rfl
    rw [hl, hr, hup, ih (upsertPoint S p), ih [p]]
    rw [upsertPoint, List.filter_append, List.append_assoc]
    congr 1
    rw [List.filter_filter]
    refine List.filter_congr ?_
    intro x _
    by_cases h1 : x.id = p.id <;> by_cases h2 : x.id ∈ ps.map NKVDoc.id <;>
      simp [h1, h2]

/-- Shared helper: elements of a bulk upsert come from the store or from
the upserted list. -/
lemma mem_bulk_insert : ∀ (ps : List NKVDoc) (S : Store) (q : NKVDoc),
    q ∈ bulk_insert S ps → q ∈ S ∨ q ∈ ps := by
  intro ps
  induction ps with
  | nil => intro S q h; exact Or.inl h
  | cons p ps ih =>
    intro S q h
    rcases ih (upsertPoint S p) q h with h2 | h2
    · rcases List.mem_append.mp h2 with h3 | h3
      · exact Or.inl (List.mem_of_mem_filter h3)
      · rcases List.mem_singleton.mp h3 with rfl
        exact Or.inr (List.mem_cons_self _ _)
    · exact Or.inr (List.mem_cons_of_mem _ h2)

/-- Shared helper: a bulk upsert never stores two points with one id. -/
lemma bulk_insert_nodup : ∀ (ps : List NKVDoc) (S : Store),
    ((S.map NKVDoc.id).Nodup) → ((bulk_insert S ps).map NKVDoc.id).Nodup := by
  intro ps
  induction ps with
  | nil => intro S h; exact h
  | cons p ps ih =>
    intro S h
    refine ih (upsertPoint S p) ?_
    rw [upsertPoint, List.map_append]
    rw [List.nodup_append]
    refine ⟨?_, by simp, ?_⟩
    · exact h.sublist ((List.filter_sublist S).map NKVDoc.id)
    · intro a ha hb
      rcases List.mem_map.mp ha with ⟨x, hx, rfl⟩
      have hne := (List.mem_filter.mp hx).2
      simp only [List.map_cons, List.map_nil, List.mem_singleton] at hb
      rw [hb] at hne
      simp at hne

/-- Shared helper: a store element whose id is upserted by nobody
survives a bulk upsert. -/
lemma mem_bulk_insert_of_mem_left (q : NKVDoc) : ∀ (ps : List NKVDoc) (S : Store),
    q ∈ S → (∀ a ∈ ps, a.id ≠ q.id) → q ∈ bulk_insert S ps := by
  intro ps
  induction ps with
  | nil => intro S h _; exact h
  | cons p ps ih =>
    intro S h hids
    refine ih (upsertPoint S p) ?_ (fun a ha => hids a (List.mem_cons_of_mem _ ha))
    rw [upsertPoint]
    refine List.mem_append_left _ (List.mem_filter.mpr ⟨h, ?_⟩)
    have := hids p (List.mem_cons_self _ _)
    simpa using fun hc => this hc.symm

/-- Shared helper: when ids determine the upserted points, every upserted
point is in the resulting store. -/
lemma mem_bulk_insert_of_mem : ∀ (ps : List NKVDoc),
    (∀ a ∈ ps, ∀ b ∈ ps, a.id = b.id → a = b) →
    ∀ q ∈ ps, ∀ S : Store, q ∈ bulk_insert S ps := by
  intro ps
  induction ps with
  | nil => intro _ q hq; exact absurd hq (by simp)
  | cons p ps ih =>
    intro hdet q hq S
    by_cases hqps : q ∈ ps
    · exact ih (fun a ha b hb => hdet a (List.mem_cons_of_mem _ ha) b
        (List.mem_cons_of_mem _ hb)) q hqps (upsertPoint S p)
    · have hqp : q = p := by
        rcases List.mem_cons.mp hq with h | h
        · exact h
        · exact absurd h hqps
      subst hqp
      refine mem_bulk_insert_of_mem_left q ps (upsertPoint S q) ?_ ?_
      · exact List.mem_append_right _ (List.mem_singleton_self _)
      · intro a ha hc
        have : a = q := hdet a (List.mem_cons_of_mem _ ha) q (List.mem_cons_self _ _) hc
        subst this
        exact hqps ha

/-- Shared helper: every produced vector document is the constructor
applied to some chunk text. -/
lemma tvd_shape (doc : KnowledgeBaseDocument) (cs : Nat) :
    ∀ p ∈ to_vector_documents doc cs, ∃ c, p = createVectorDoc doc c := by
  intro p hp
  rw [to_vector_documents] at hp
  rcases hdoc : doc.content with _ | c
  · rw [hdoc] at hp
    simp at hp
    exact ⟨headerOf doc, hp⟩
  · rw [hdoc] at hp
    by_cases hc : c = []
    · subst hc
      simp at hp
      exact ⟨headerOf doc, hp⟩
    · have hp2 : p ∈ (chunkLines cs (headerOf doc) (pySplitNl c)).map
          (createVectorDoc doc) := by simpa [hc] using hp
      rcases List.mem_map.mp hp2 with ⟨ch, _, hpe⟩
      exact ⟨ch, hpe.symm⟩

/-- Shared helper: equal deterministic ids force equal vector documents of
one source document. -/
lemma createVectorDoc_det (doc : KnowledgeBaseDocument) (c1 c2 : List Char) :
    (createVectorDoc doc c1).id = (createVectorDoc doc c2).id →
      createVectorDoc doc c1 = createVectorDoc doc c2 := by
  intro h
  have h2 : Cleaner.pyStrip c1 = Cleaner.pyStrip c2 := by
    simpa [createVectorDoc, uuid5, content_hash] using h
  simp [createVectorDoc, h2]

/-- Shared helper: the chunk id determines the chunk among the
vector documents of one source document. -/
lemma tvd_det (doc : KnowledgeBaseDocument) (cs : Nat) :
    ∀ a ∈ to_vector_documents doc cs, ∀ b ∈ to_vector_documents doc cs,
      a.id = b.id → a = b := by
  intro a ha b hb h
  rcases tvd_shape doc cs a ha with ⟨ca, rfl⟩
  rcases tvd_shape doc cs b hb with ⟨cb, rfl⟩
  exact createVectorDoc_det doc ca cb h

/-- Shared helper: every produced vector document carries the notion id of its
source document in its metadata. -/
lemma tvd_notion_id (doc : KnowledgeBaseDocument) (cs : Nat) :
    ∀ p ∈ to_vector_documents doc cs, p.metadata.notion_id = doc.notion_id := by
  intro p hp
  rcases tvd_shape doc cs p hp with ⟨c, rfl⟩
  simp [createVectorDoc]

end WizAI.Notion

namespace WizAI.Notion

/-- Shared helper: after a reindex, the store restricted to the notion id of
the document is exactly the bulk upsert of the fresh chunks into an empty
store. -/
lemma reindex_filter_eq (S : Store) (doc : KnowledgeBaseDocument) :
    (reindex S doc).filter (fun q => q.metadata.notion_id = doc.notion_id) =
      bulk_insert [] (to_vector_documents doc defaultChunkSize) := by
  rw [reindex, bulk_insert_eq, List.filter_append]
  have h1 : ((delete_by_notion_id doc.notion_id S).filter
      (fun q => q.id ∉ (to_vector_documents doc defaultChunkSize).map NKVDoc.id)).filter
        (fun q => q.metadata.notion_id = doc.notion_id) = [] := by
    rw [List.filter_eq_nil_iff]
    intro a ha
    have ha2 := List.mem_of_mem_filter ha
    have hne := (List.mem_filter.mp ha2).2
    simp only [decide_not, Bool.not_eq_true', decide_eq_false_iff_not] at hne
    simpa using hne
  have h2 : (bulk_insert [] (to_vector_documents doc defaultChunkSize)).filter
      (fun q => q.metadata.notion_id = doc.notion_id) =
        bulk_insert [] (to_vector_documents doc defaultChunkSize) := by
    rw [List.filter_eq_self]
    intro a ha
    rcases mem_bulk_insert _ _ a ha with h | h
    · exact absurd h (by simp)
    · simp [tvd_notion_id doc _ a h]
  rw [h1, h2, List.nil_append]

/-- Shared helper: deleting the notion id of the document from a reindexed
store leaves exactly the points of other documents that no fresh chunk id
replaced. -/
lemma delete_reindex (S : Store) (doc : KnowledgeBaseDocument) :
    delete_by_notion_id doc.notion_id (reindex S doc) =
      (delete_by_notion_id doc.notion_id S).filter
        (fun q => q.id ∉ (to_vector_documents doc defaultChunkSize).map NKVDoc.id) := by
  rw [reindex, bulk_insert_eq]
  rw [delete_by_notion_id, List.filter_append]
  have h2 : (bulk_insert [] (to_vector_documents doc defaultChunkSize)).filter
      (fun p => p.metadata.notion_id ≠ doc.notion_id) = [] := by
    rw [List.filter_eq_nil_iff]
    intro a ha
    rcases mem_bulk_insert _ _ a ha with h | h
    · exact absurd h (by simp)
    · simp [tvd_notion_id doc _ a h]
  have h1 : ((delete_by_notion_id doc.notion_id S).filter
      (fun q => q.id ∉ (to_vector_documents doc defaultChunkSize).map NKVDoc.id)).filter
        (fun p => p.metadata.notion_id ≠ doc.notion_id) =
      (delete_by_notion_id doc.notion_id S).filter
        (fun q => q.id ∉ (to_vector_documents doc defaultChunkSize).map NKVDoc.id) := by
    rw [List.filter_eq_self]
    intro a ha
    exact (List.mem_filter.mp (List.mem_of_mem_filter ha)).2
  rw [h1, h2, List.append_nil]

end WizAI.Notion

namespace WizAI.Notion

/-- Claim C3: reindexing a source document is idempotent: running
`reindex(D)` twice leaves the same store as running it once; after a
reindex the store holds, under the stable notion id of D, exactly the chunk
set segmented from the current content of D (set equality of points), with no two
stored points sharing an id; and every stored chunk id is deterministically
derived from the source document id and the hash of the chunk content. -/
theorem reindex_idempotent (S : Store) (doc : KnowledgeBaseDocument) :
    reindex (reindex S doc) doc = reindex S doc ∧
    (∀ p, (p ∈ (reindex S doc).filter
        (fun q => q.metadata.notion_id = doc.notion_id)) ↔
      p ∈ to_vector_documents doc defaultChunkSize) ∧
    (((reindex S doc).filter (fun q => q.metadata.notion_id = doc.notion_id)).map
        NKVDoc.id).Nodup ∧
    (∀ p ∈ to_vector_documents doc defaultChunkSize,
      p.id = uuid5 doc.id (content_hash p.content)) := by
  refine ⟨?_, ?_, ?_, ?_⟩
  · conv_lhs => rw [reindex]
    rw [delete_reindex]
    rw [bulk_insert_eq]
    have hff : ((delete_by_notion_id doc.notion_id S).filter
        (fun q => q.id ∉ (to_vector_documents doc defaultChunkSize).map NKVDoc.id)).filter
          (fun q => q.id ∉ (to_vector_documents doc defaultChunkSize).map NKVDoc.id) =
        (delete_by_notion_id doc.notion_id S).filter
          (fun q => q.id ∉ (to_vector_documents doc defaultChunkSize).map NKVDoc.id) := by
      rw [List.filter_eq_self]
      intro a ha
      exact (List.mem_filter.mp ha).2
    rw [hff]
    conv_rhs => rw [reindex, bulk_insert_eq]
  · intro p
    rw [reindex_filter_eq]
    constructor
    · intro h
      rcases mem_bulk_insert _ _ p h with h2 | h2
      · exact absurd h2 (by simp)
      · exact h2
    · intro h
      exact mem_bulk_insert_of_mem _ (tvd_det doc defaultChunkSize) p h []
  · rw [reindex_filter_eq]
    exact bulk_insert_nodup _ [] (by simp)
  · intro p hp
    rcases tvd_shape doc defaultChunkSize p hp with ⟨c, rfl⟩
    simp [createVectorDoc, content_hash]

/-- Witness for the reindex theorem at a concrete store and document: the
id of the single header chunk of a content-free document is derived from
the document id and the content hash, and reindexing the empty store twice
equals reindexing it once. -/
theorem reindex_idempotent_witness :
    (reindex (reindex []
        (KnowledgeBaseDocument.mk "n0" "d0" (String.toList "T") (String.toList "S")
          [] "Draft" false none none))
        (KnowledgeBaseDocument.mk "n0" "d0" (String.toList "T") (String.toList "S")
          [] "Draft" false none none) =
      reindex []
        (KnowledgeBaseDocument.mk "n0" "d0" (String.toList "T") (String.toList "S")
          [] "Draft" false none none)) ∧
    (createVectorDoc
        (KnowledgeBaseDocument.mk "n0" "d0" (String.toList "T") (String.toList "S")
          [] "Draft" false none none)
        (headerOf (KnowledgeBaseDocument.mk "n0" "d0" (String.toList "T")
          (String.toList "S") [] "Draft" false none none))).id =
      uuid5 "d0" (content_hash (createVectorDoc
        (KnowledgeBaseDocument.mk "n0" "d0" (String.toList "T") (String.toList "S")
          [] "Draft" false none none)
        (headerOf (KnowledgeBaseDocument.mk "n0" "d0" (String.toList "T")
          (String.toList "S") [] "Draft" false none none))).content) :=
  ⟨(reindex_idempotent []
      (KnowledgeBaseDocument.mk "n0" "d0" (String.toList "T") (String.toList "S")
        [] "Draft" false none none)).1,
   (reindex_idempotent []
      (KnowledgeBaseDocument.mk "n0" "d0" (String.toList "T") (String.toList "S")
        [] "Draft" false none none)).2.2.2 _ (by decide)⟩

end WizAI.Notion

namespace WizAI.Hummingbot

/-- Shared helper: `retrieve_documents` never changes the message log. -/
lemma retrieve_documents_messages (st : State) (sr : List SearchDoc) :
    (retrieve_documents st sr).messages = st.messages := by
  simp only [retrieve_documents]
  split
  · rfl
  · split <;> rfl

/-- Shared helper: `retrieve_documents` written through `newDocs`. -/
lemma retrieve_documents_eq (st : State) (sr : List SearchDoc) :
    retrieve_documents st sr =
      (if st.messages.filter (fun m => m.role = Role.human) = [] then st
       else if newDocs st sr ≠ [] then
         { st with retrieved_docs := st.retrieved_docs ++ newDocs st sr }
       else st) := rfl

/-- Shared helper: every document of an incremental result has an identity
outside the already retrieved set. -/
lemma newDocs_not_seen (st : State) (sr : List SearchDoc) :
    ∀ d ∈ newDocs st sr, ¬ d.id ∈ st.retrieved_docs.map RetrievedDoc.id := by
  intro d hd
  rw [newDocs] at hd
  rcases List.mem_map.mp hd with ⟨x, hx, rfl⟩
  have := (List.mem_filter.mp hx).2
  simpa using this

/-- Shared helper: a nonempty user message log makes the call merge the
incremental result into the retrieved set. -/
lemma retrieve_documents_merge (st : State) (sr : List SearchDoc)
    (hmsg : st.messages.filter (fun m => m.role = Role.human) ≠ []) :
    (retrieve_documents st sr).retrieved_docs = st.retrieved_docs ++ newDocs st sr := by
  rw [retrieve_documents_eq, if_neg hmsg]
  by_cases hnd : newDocs st sr = []
  · rw [if_neg (by simp [hnd]), hnd, List.append_nil]
  · rw [if_pos hnd]

end WizAI.Hummingbot

namespace WizAI.Hummingbot

/-- Claim C4 counterexample: one retrieve call can return the same chunk
identity twice.  With nothing retrieved yet, a top-3 result holding two
different chunks that carry the same `document_id` metadata passes both
through the seen-filter, so the identity X is returned twice within the
call, contradicting that no chunk identity is ever returned twice in the
conversation. -/
theorem retrieve_dedup_counterexample :
    (newDocs initialState
        [SearchDoc.mk "chunk one" (some "X"), SearchDoc.mk "chunk two" (some "X")]).map
      RetrievedDoc.id = ["X", "X"] ∧
    ¬ ((newDocs initialState
        [SearchDoc.mk "chunk one" (some "X"), SearchDoc.mk "chunk two" (some "X")]).map
      RetrievedDoc.id).Nodup := by
  exact ⟨rfl, by decide⟩

/-- Claim C4 (amended): retrieval searches top-K with K = 3, filters out
every identity already in the seen set and returns only the incremental
new set, which the caller merges into the state; an empty incremental
result is not an error (the state is simply unchanged); consequently no
identity is returned by two different calls of one conversation, and
within a single call identities repeat only when two top-K hits share one
(under per-call distinct search identities no identity is ever returned
twice). -/
theorem retrieve_dedup_amended :
    retrievalK = 3 ∧
    (∀ (st : State) (sr : List SearchDoc), ∀ d ∈ newDocs st sr,
        ¬ d.id ∈ st.retrieved_docs.map RetrievedDoc.id) ∧
    (∀ (st : State) (sr : List SearchDoc),
        st.messages.filter (fun m => m.role = Role.human) ≠ [] →
        (retrieve_documents st sr).retrieved_docs =
          st.retrieved_docs ++ newDocs st sr) ∧
    (∀ (st : State) (sr : List SearchDoc), newDocs st sr = [] →
        retrieve_documents st sr = st) ∧
    (∀ (st : State) (sr : List SearchDoc),
        (sr.map (fun d =>
          d.metadata_document_id.getD (contentHashFallback d.page_content))).Nodup →
        ((newDocs st sr).map RetrievedDoc.id).Nodup) ∧
    (∀ (st : State) (sr1 sr2 : List SearchDoc),
        st.messages.filter (fun m => m.role = Role.human) ≠ [] →
        ∀ d1 ∈ newDocs st sr1, ∀ d2 ∈ newDocs (retrieve_documents st sr1) sr2,
          d2.id ≠ d1.id) := by
  refine ⟨rfl, newDocs_not_seen, retrieve_documents_merge, ?_, ?_, ?_⟩
  · intro st sr hnd
    rw [retrieve_documents_eq]
    split
    · rfl
    · rw [if_neg (by simp [hnd])]
  · intro st sr hsr
    have : (newDocs st sr).map RetrievedDoc.id =
        (sr.filter (fun d =>
          ¬ (d.metadata_document_id.getD (contentHashFallback d.page_content))
              ∈ st.retrieved_docs.map (·.id))).map (fun d =>
          d.metadata_document_id.getD (contentHashFallback d.page_content)) := by
      rw [newDocs, List.map_map]
      rfl
    rw [this]
    exact hsr.sublist ((List.filter_sublist sr).map _)
  · intro st sr1 sr2 hmsg d1 hd1 d2 hd2
    have hnot := newDocs_not_seen (retrieve_documents st sr1) sr2 d2 hd2
    rw [retrieve_documents_merge st sr1 hmsg] at hnot
    intro he
    apply hnot
    rw [List.map_append, List.mem_append, he]
    exact Or.inr (List.mem_map.mpr ⟨d1, hd1, rfl⟩)

/-- Witness for the amended retrieval theorem: at concrete calls, the
caller merge holds, and the identity returned by a concrete second call
differs from the one returned by the first call. -/
theorem retrieve_dedup_amended_witness :
    ((retrieve_documents initialState [SearchDoc.mk "c" (some "X")]).retrieved_docs =
        initialState.retrieved_docs ++ newDocs initialState [SearchDoc.mk "c" (some "X")]) ∧
    (RetrievedDoc.mk "Y" "d").id ≠ (RetrievedDoc.mk "X" "c").id :=
  ⟨retrieve_dedup_amended.2.2.1 initialState [SearchDoc.mk "c" (some "X")] (by decide),
   retrieve_dedup_amended.2.2.2.2.2 initialState [SearchDoc.mk "c" (some "X")]
     [SearchDoc.mk "d" (some "Y")] (by decide)
     (RetrievedDoc.mk "X" "c") (by decide) (RetrievedDoc.mk "Y" "d") (by decide)⟩

end WizAI.Hummingbot
